import Mathlib

/-!
Shallow embedding of the GTrans-Favorites-to-Anki reconciliation pipeline
(`src/storage.py`, `src/scraper.py`, `src/gemini_client.py`,
`src/anki_client.py`, `src/main.py`) and proofs about it.

Conventions:
* Python `set[str]` is modelled as `Finset String`.
* A JSON document parsed by `json.loads` is modelled by `JsonVal`
  (numbers restricted to integers; floats are outside the modelled inputs).
* Fallible external calls are modelled by explicit result data carried in a
  `World` record; the reconciliation pass is a pure function of that record.
-/

/-- A parsed JSON value (`json.loads` result).  Objects are association lists
with distinct keys, which is what `json.loads` produces (later duplicate keys
overwrite earlier ones during parsing). -/
inductive JsonVal where
  | null : JsonVal
  | bool (b : Bool) : JsonVal
  | num (n : Int) : JsonVal
  | str (s : String) : JsonVal
  | arr (xs : List JsonVal) : JsonVal
  | obj (fields : List (String × JsonVal)) : JsonVal

/-- The observable state of the ledger's backing file for `load_ids`:
missing, present but unreadable (`IOError` on open/read), present but not
valid JSON (`json.JSONDecodeError`), or present with a parsed JSON value. -/
inductive FileState where
  | absent : FileState
  | unreadable : FileState
  | notJson : FileState
  | json (v : JsonVal) : FileState

/-- Python `repr` of a parsed-JSON value, used inside container `str()` output
(strings are shown with single quotes; exotic quote-escaping of strings that
themselves contain a single quote is outside the modelled inputs). -/
def pyRepr : JsonVal → String
  | .null => "None"
  | .bool true => "True"
  | .bool false => "False"
  | .num n => toString n
  | .str s => "'" ++ s ++ "'"
  | .arr xs => "[" ++ String.intercalate ", " (xs.attach.map fun a => pyRepr a.1) ++ "]"
  | .obj fs =>
      "\x7b" ++ String.intercalate ", "
          (fs.attach.map fun p => "'" ++ p.1.1 ++ "': " ++ pyRepr p.1.2)
        ++ "\x7d"
  decreasing_by
  · have h := List.sizeOf_lt_of_mem a.2
    simp only [JsonVal.arr.sizeOf_spec]
    omega
  · have h := List.sizeOf_lt_of_mem p.2
    have h2 : sizeOf p.1.2 < sizeOf p.1 := by
      obtain ⟨x, y⟩ := p.1
      simp only [Prod.mk.sizeOf_spec]
      omega
    simp only [JsonVal.obj.sizeOf_spec]
    omega

/-- Python `str()` of a parsed-JSON value (`str(x)` in `load_ids`):
a string is returned unquoted, everything else as its `repr`. -/
def pyStr : JsonVal → String
  | .str s => s
  | v => pyRepr v

/-- The body of `load_ids` after the file has been read and parsed: Python
returns `set(str(x) for x in data)` when `data` is a list and an empty set
otherwise.  Split out so that the try/except wrapper below mirrors the code. -/
def loadIdsFromJson (v : JsonVal) : Finset String :=
  match v with
  | .arr xs => (xs.map pyStr).toFinset
  | _ => ∅

/-- `load_ids` (`src/storage.py`): a missing file, an `IOError`, a JSON decode
error, or a non-list document all produce the empty set (the exceptions are
caught inside `load_ids` and logged, never propagated to the caller). -/
def load_ids (fs : FileState) : Finset String :=
  match fs with
  | .absent => ∅
  | .unreadable => ∅
  | .notJson => ∅
  | .json v => loadIdsFromJson v

/-- `sorted(list(set(ids)))` in `save_ids`: deduplicate, then sort.
Python sorts strings lexicographically on code points, as `≤` on
`String` does. -/
def sortDedup (ids : List String) : List String :=
  ids.dedup.insertionSort (fun a b : String => a ≤ b)

/-- `save_ids` (`src/storage.py`).  `writeOk` records whether the
`path.open("w")`/`json.dump` succeeded; on success the file holds the sorted
deduplicated JSON array of the ids, on failure the error is caught and logged
(the claims proved below only depend on the success case; `old` stands for
whatever the failed write left behind). -/
def save_ids (writeOk : Bool) (old : FileState) (ids : List String) : FileState :=
  if writeOk then .json (.arr ((sortDedup ids).map JsonVal.str)) else old

theorem sortDedup_toFinset (ids : List String) : (sortDedup ids).toFinset = ids.toFinset := by
  unfold sortDedup
  rw [List.toFinset_eq_of_perm _ _ (ids.dedup.perm_insertionSort _)]
  exact List.toFinset.ext (fun x => by simp)

theorem sortDedup_nodup (ids : List String) : (sortDedup ids).Nodup :=
  ((ids.dedup.perm_insertionSort _).nodup_iff).mpr ids.nodup_dedup

theorem sortDedup_sorted (ids : List String) :
    (sortDedup ids).Pairwise (fun a b : String => a ≤ b) :=
  List.sorted_insertionSort _ ids.dedup

/-! ### SHA-256 (`hashlib.sha256(...).hexdigest()` in `src/scraper.py`)

32-bit words are `Nat` values kept below `2^32` by reducing mod `2^32`
after every arithmetic step. -/

/-- Reduce to a 32-bit word. -/
def w32 (n : Nat) : Nat := n % 4294967296

/-- Right-rotation of a 32-bit word. -/
def rotr32 (k x : Nat) : Nat := w32 ((x >>> k) ||| (x <<< (32 - k)))

/-- Bitwise complement of a 32-bit word. -/
def not32 (x : Nat) : Nat := x ^^^ 4294967295

def sha256Ch (e f g : Nat) : Nat := (e &&& f) ^^^ (not32 e &&& g)

def sha256Maj (a b c : Nat) : Nat := (a &&& b) ^^^ (a &&& c) ^^^ (b &&& c)

def bsig0 (x : Nat) : Nat := rotr32 2 x ^^^ rotr32 13 x ^^^ rotr32 22 x

def bsig1 (x : Nat) : Nat := rotr32 6 x ^^^ rotr32 11 x ^^^ rotr32 25 x

def ssig0 (x : Nat) : Nat := rotr32 7 x ^^^ rotr32 18 x ^^^ (x >>> 3)

def ssig1 (x : Nat) : Nat := rotr32 17 x ^^^ rotr32 19 x ^^^ (x >>> 10)

/-- The 64 SHA-256 round constants of FIPS 180-4 (the fractional parts of
the cube roots of the first 64 primes), written in decimal. -/
def sha256K : List Nat :=
  [1116352408, 1899447441, 3049323471, 3921009573, 961987163, 1508970993,
   2453635748, 2870763221, 3624381080, 310598401, 607225278, 1426881987,
   1925078388, 2162078206, 2614888103, 3248222580, 3835390401, 4022224774,
   264347078, 604807628, 770255983, 1249150122, 1555081692, 1996064986,
   2554220882, 2821834349, 2952996808, 3210313671, 3336571891, 3584528711,
   113926993, 338241895, 666307205, 773529912, 1294757372, 1396182291,
   1695183700, 1986661051, 2177026350, 2456956037, 2730485921, 2820302411,
   3259730800, 3345764771, 3516065817, 3600352804, 4094571909, 275423344,
   430227734, 506948616, 659060556, 883997877, 958139571, 1322822218,
   1537002063, 1747873779, 1955562222, 2024104815, 2227730452, 2361852424,
   2428436474, 2756734187, 3204031479, 3329325298]

/-- The SHA-256 initial hash value of FIPS 180-4, written in decimal. -/
def sha256H0 : List Nat :=
  [1779033703, 3144134277, 1013904242, 2773480762, 1359893119, 2600822924,
   528734635, 1541459225]

/-- Big-endian byte decomposition of `n` into `w` bytes. -/
def toBytesBE (w n : Nat) : List Nat :=
  (List.range w).map (fun i => (n >>> (8 * (w - 1 - i))) % 256)

/-- SHA-256 padding: append `0x80`, zero bytes up to 56 mod 64, then the
64-bit big-endian bit length. -/
def sha256Pad (msg : List Nat) : List Nat :=
  let z := (120 - ((msg.length + 1) % 64)) % 64
  msg ++ [0x80] ++ List.replicate z 0 ++ toBytesBE 8 (8 * msg.length)

/-- Split a padded message into 64-byte blocks. -/
def sha256Blocks (l : List Nat) : List (List Nat) :=
  if h : l = [] then [] else l.take 64 :: sha256Blocks (l.drop 64)
termination_by l.length
decreasing_by
  have : l.length ≠ 0 := fun hlen => h (List.length_eq_zero.mp hlen)
  simp only [List.length_drop]
  omega

/-- The 16 initial 32-bit message-schedule words of a block (big-endian). -/
def blockWords (block : List Nat) : List Nat :=
  (List.range 16).map fun i =>
    block.getD (4 * i) 0 * 16777216 + block.getD (4 * i + 1) 0 * 65536 +
      block.getD (4 * i + 2) 0 * 256 + block.getD (4 * i + 3) 0

/-- One message-schedule extension step, computing word `ws.length`. -/
def sha256NextW (ws : List Nat) : Nat :=
  let t := ws.length
  w32 (ssig1 (ws.getD (t - 2) 0) + ws.getD (t - 7) 0 + ssig0 (ws.getD (t - 15) 0) +
    ws.getD (t - 16) 0)

/-- Extend the 16 schedule words to 64. -/
def sha256Schedule (ws : List Nat) : List Nat :=
  (List.range 48).foldl (fun acc _ => acc ++ [sha256NextW acc]) ws

/-- One SHA-256 compression round on the working variables `[a,b,c,d,e,f,g,h]`. -/
def sha256Round (vars : List Nat) (k w : Nat) : List Nat :=
  match vars with
  | [a, b, c, d, e, f, g, h] =>
    let t1 := w32 (h + bsig1 e + sha256Ch e f g + k + w)
    let t2 := w32 (bsig0 a + sha256Maj a b c)
    [w32 (t1 + t2), a, b, c, w32 (d + t1), e, f, g]
  | other => other

/-- Compress one 64-byte block into the running hash. -/
def sha256Block (hash : List Nat) (block : List Nat) : List Nat :=
  let ws := sha256Schedule (blockWords block)
  let v := (sha256K.zip ws).foldl (fun st kw => sha256Round st kw.1 kw.2) hash
  (hash.zip v).map fun p => w32 (p.1 + p.2)

/-- SHA-256 of a byte sequence as eight 32-bit words. -/
def sha256Words (msg : List Nat) : List Nat :=
  (sha256Blocks (sha256Pad msg)).foldl sha256Block sha256H0

def hexDigit (n : Nat) : Char :=
  if n < 10 then Char.ofNat (48 + n) else Char.ofNat (87 + n)

/-- Lowercase 8-hex-digit rendering of a 32-bit word. -/
def hex8 (n : Nat) : String :=
  String.mk ((List.range 8).map fun i => hexDigit ((n >>> (4 * (7 - i))) % 16))

/-- `hashlib.sha256(bytes).hexdigest()`. -/
def sha256Hex (msg : List Nat) : String :=
  String.join ((sha256Words msg).map hex8)

/-- UTF-8 encoding of a single code point (`str.encode()` operates per char). -/
def utf8EncodeCp (c : Nat) : List Nat :=
  if c < 128 then [c]
  else if c < 2048 then [192 ||| (c >>> 6), 128 ||| (c &&& 63)]
  else if c < 65536 then
    [224 ||| (c >>> 12), 128 ||| ((c >>> 6) &&& 63), 128 ||| (c &&& 63)]
  else
    [240 ||| (c >>> 18), 128 ||| ((c >>> 12) &&& 63), 128 ||| ((c >>> 6) &&& 63),
     128 ||| (c &&& 63)]

/-- UTF-8 bytes of a string (Python `s.encode()`). -/
def strBytes (s : String) : List Nat :=
  s.data.foldr (fun c acc => utf8EncodeCp c.toNat ++ acc) []

/-! ### Scraper (`src/scraper.py`) -/

/-- `FavoriteItem` (`src/scraper.py`). -/
structure FavoriteItem where
  text : String
  translation : String
  item_id : String
deriving DecidableEq, Repr

/-- `item_id = hashlib.sha256(f"{text}-{translation}".encode()).hexdigest()`
(`Scraper.fetch_favorites`). -/
def mkItemId (text translation : String) : String :=
  sha256Hex (strBytes (text ++ "-" ++ translation))

/-- One scraped favorite element, as the pair of inner texts of the
text/translation sub-locators (missing sub-elements read as `""`). -/
structure RawElement where
  rawText : String
  rawTranslation : String
deriving DecidableEq, Repr

/-- Python `str.strip()`: drop leading and trailing whitespace. -/
def pyStrip (s : String) : String :=
  ⟨(((s.data.dropWhile Char.isWhitespace).reverse.dropWhile Char.isWhitespace)).reverse⟩

/-- The extraction loop of `Scraper.fetch_favorites`: enumerate the favorite
elements, stop once `limit` truthy items have been visited
(`if limit and i >= limit: break`; `limit = 0` therefore means unbounded),
strip both inner texts, skip elements with an empty text or translation,
and assign `item_id` from the stripped pair. -/
def fetchLoop (limit : Nat) : Nat → List RawElement → List FavoriteItem
  | _, [] => []
  | i, e :: rest =>
    if limit ≠ 0 ∧ limit ≤ i then []
    else
      let text := pyStrip e.rawText
      let translation := pyStrip e.rawTranslation
      if text ≠ "" ∧ translation ≠ "" then
        ⟨text, translation, mkItemId text translation⟩ :: fetchLoop limit (i + 1) rest
      else
        fetchLoop limit (i + 1) rest

/-- `Scraper.fetch_favorites` on a page whose favorite elements are
`elements` (the empty-state page is `elements = []`). -/
def fetchFavorites (elements : List RawElement) (limit : Nat) : List FavoriteItem :=
  fetchLoop limit 0 elements

theorem fetchLoop_item_id (limit i : Nat) (es : List RawElement) :
    ∀ item ∈ fetchLoop limit i es, item.item_id = mkItemId item.text item.translation := by
  induction es generalizing i with
  | nil => intro item h; simp [fetchLoop] at h
  | cons e rest ih =>
    intro item h
    simp only [fetchLoop] at h
    split at h
    · simp at h
    · split at h
      · rcases List.mem_cons.mp h with h1 | h1
        · subst h1; rfl
        · exact ih _ item h1
      · exact ih _ item h

/-! ### Enrichment decode (`GeminiProcessor.process_item`, `src/gemini_client.py`) -/

/-- `ProcessedWord`: field values are whatever parsed-JSON values
`item_data.get(key, "")` returned (Python performs no type validation on
them). -/
structure ProcessedWord where
  english_word : JsonVal
  example_sentence : JsonVal
  japanese_meaning : JsonVal
  example_translation : JsonVal

/-- `ProcessedSentence`. -/
structure ProcessedSentence where
  japanese_sentence : JsonVal
  english_sentence : JsonVal

/-- `ProcessedItem.data` together with the `type` tag. -/
inductive ProcessedData where
  | word (w : ProcessedWord) : ProcessedData
  | sentence (s : ProcessedSentence) : ProcessedData

/-- `ProcessedItem`. -/
structure ProcessedItem where
  item_id : String
  data : ProcessedData

/-- The observable outcome of `self.model.generate_content` + JSON parsing:
the API call raised (`GoogleAPIError` or any other exception), the response
text was not valid JSON (`json.JSONDecodeError`), or it parsed to a JSON
value (markdown ```json fences already stripped by the cleanup step). -/
inductive GeminiResponse where
  | apiError : GeminiResponse
  | unparseable : GeminiResponse
  | json (v : JsonVal) : GeminiResponse

/-- `dict.get(key)` on a parsed JSON object. -/
def dictGet (fields : List (String × JsonVal)) (k : String) : Option JsonVal :=
  (fields.find? (fun p => p.1 == k)).map (·.2)

/-- `dict.get(key, "")`. -/
def dictGetD (fields : List (String × JsonVal)) (k : String) : JsonVal :=
  (dictGet fields k).getD (.str "")

/-- Python truthiness of a parsed-JSON value. -/
def jsonTruthy : JsonVal → Bool
  | .null => false
  | .bool b => b
  | .num n => n != 0
  | .str s => s != ""
  | .arr xs => !xs.isEmpty
  | .obj fs => !fs.isEmpty

/-- Truthiness of `dict.get`'s result (a missing key yields `None`, falsy). -/
def optTruthy : Option JsonVal → Bool
  | none => false
  | some v => jsonTruthy v

/-- Python `==` between `dict.get`'s result and a string literal (only a
`str` value can compare equal to a string). -/
def jsonEqStr (v : Option JsonVal) (s : String) : Bool :=
  match v with
  | some (.str t) => t == s
  | _ => false

/-- The decode logic of `GeminiProcessor.process_item` after the response has
been obtained and parsed: `data.get("type")` / `data.get("data")` (an
`AttributeError` from calling `.get` on a non-dict is caught by the generic
`except` and yields `None`), the `if not item_type or not item_data` guard,
and the `if item_type == "word" ... elif item_type == "sentence" ... else`
chain whose variant fields are `item_data.get(key, "")`. -/
def decodeGemini (itemId : String) (resp : GeminiResponse) : Option ProcessedItem :=
  match resp with
  | .apiError => none
  | .unparseable => none
  | .json (.obj fields) =>
    let itemType := dictGet fields "type"
    let itemData := dictGet fields "data"
    if !optTruthy itemType || !optTruthy itemData then none
    else if jsonEqStr itemType "word" then
      match itemData with
      | some (.obj d) =>
        some ⟨itemId, .word ⟨dictGetD d "english_word", dictGetD d "example_sentence",
          dictGetD d "japanese_meaning", dictGetD d "example_translation"⟩⟩
      | _ => none
    else if jsonEqStr itemType "sentence" then
      match itemData with
      | some (.obj d) =>
        some ⟨itemId, .sentence ⟨dictGetD d "japanese_sentence", dictGetD d "english_sentence"⟩⟩
      | _ => none
    else none
  | .json _ => none

/-! ### Sink formatting (`src/anki_client.py`) -/

/-- Deck/model names from `src/config.py` (environment-derived). -/
structure Config where
  wordDeck : String
  wordModel : String
  sentenceDeck : String
  sentenceModel : String

/-- `AnkiNote`: deck, model, field mapping, and the
`options = {"allowDuplicate": True}` flag. -/
structure AnkiNote where
  deckName : String
  modelName : String
  fields : List (String × JsonVal)
  allowDuplicate : Bool

/-- `format_word_note`. -/
def format_word_note (cfg : Config) (w : ProcessedWord) : AnkiNote :=
  ⟨cfg.wordDeck, cfg.wordModel,
    [("単語", w.english_word), ("フレーズ", w.example_sentence), ("意味", w.japanese_meaning),
     ("フレーズの意味", w.example_translation), ("単語音声", .str ""), ("フレーズ音声", .str "")],
    true⟩

/-- `format_sentence_note`. -/
def format_sentence_note (cfg : Config) (s : ProcessedSentence) : AnkiNote :=
  ⟨cfg.sentenceDeck, cfg.sentenceModel,
    [("Front", s.japanese_sentence), ("Back", s.english_sentence)], true⟩

/-- The note built for a processed item in `_process_new_favorites`
(`if processed_item.type == "word" ... elif ... == "sentence"`). -/
def formatNoteFor (cfg : Config) (p : ProcessedItem) : AnkiNote :=
  match p.data with
  | .word w => format_word_note cfg w
  | .sentence s => format_sentence_note cfg s

/-! ### The reconciliation pass (`src/main.py`)

External behaviour is carried by a `World` record: the pass is a pure
function of the world, and every externally visible action is recorded as
an `Event` in the order the code performs it. -/

/-- One externally visible action of a pass. -/
inductive Event where
  | fetch (result : List FavoriteItem) : Event
  | deleteStale (item : FavoriteItem) (ok : Bool) : Event
  | geminiCall (item : FavoriteItem) (ok : Bool) : Event
  | ensureTarget (deck model : String) : Event
  | ankiWrite (note : AnkiNote) (pairedItem : FavoriteItem) (result : Option Nat) : Event
  | ledgerSave (ids : List String) : Event
  | deleteCommitted (item : FavoriteItem) (ok : Bool) : Event

def Event.isFetch : Event → Bool
  | .fetch _ => true
  | _ => false

def Event.isDeleteStale : Event → Bool
  | .deleteStale _ _ => true
  | _ => false

def Event.isGeminiCall : Event → Bool
  | .geminiCall _ _ => true
  | _ => false

def Event.isAnkiWrite : Event → Bool
  | .ankiWrite _ _ _ => true
  | _ => false

def Event.isLedgerSave : Event → Bool
  | .ledgerSave _ => true
  | _ => false

def Event.isDeleteCommitted : Event → Bool
  | .deleteCommitted _ _ => true
  | _ => false

/-- The only fatal startup-configuration failure in the modelled code:
`GeminiProcessor.__init__` raising `RuntimeError` on an empty
`GEMINI_API_KEY`. -/
inductive PassError where
  | missingApiKey : PassError
deriving DecidableEq, Repr

/-- The external world a pass runs against: current ledger file, current
Source contents (the favorite items a fetch would yield, in order), the
Enrichment credential, and the deterministic per-call behaviour of the
three collaborators. -/
structure World where
  cfg : Config
  ledgerFile : FileState
  source : List FavoriteItem
  apiKey : String
  gemini : FavoriteItem → GeminiResponse
  anki : AnkiNote → Option Nat
  deleteOk : FavoriteItem → Bool
  ledgerWriteOk : Bool

/-- Outcome of one `run_once` pass: final ledger file, final Source
contents, the ordered trace of external actions, and the uncaught
exception, if any. -/
structure PassResult where
  ledgerFile : FileState
  source : List FavoriteItem
  trace : List Event
  err : Option PassError

/-- `load_ids` as the pipeline consumes it: the member list of the
persisted set (deduplicated, so it models `set(...)` faithfully up to
order). -/
def load_ids_list (fs : FileState) : List String :=
  match fs with
  | .json (.arr xs) => (xs.map pyStr).dedup
  | _ => []

/-- `set.add` on the list representation of a Python string set. -/
def insertId (s : List String) (id : String) : List String :=
  if s.contains id then s else s ++ [id]

/-- `fetch_favorites(limit=limit)` as `run_once` observes it: the Source's
current items, cut off by the scrape loop's `if limit and i >= limit: break`
(so `limit = 0` means no bound). -/
def fetchF (src : List FavoriteItem) (limit : Nat) : List FavoriteItem :=
  if limit = 0 then src else src.take limit

/-- `delete_favorite_item`'s effect on the Source when it returns `True`:
the item is located by its text (`:has-text` selector) and removed. -/
def eraseFirstByText (src : List FavoriteItem) (t : String) : List FavoriteItem :=
  match src with
  | [] => []
  | x :: rest => if x.text == t then rest else x :: eraseFirstByText rest t

/-- The stale-cleanup loop of `_load_and_filter_favorites`: delete each stale
item, counting successes, never aborting on a failure. -/
def staleCleanup (delOk : FavoriteItem → Bool) :
    List FavoriteItem → List FavoriteItem → List FavoriteItem × List Event
  | src, [] => (src, [])
  | src, item :: rest =>
    let ok := delOk item
    let src1 := if ok then eraseFirstByText src item.text else src
    let (src2, evs) := staleCleanup delOk src1 rest
    (src2, .deleteStale item ok :: evs)

/-- `_load_and_filter_favorites`: fetch, partition against the loaded ids,
delete every stale item and refetch if any were found, then keep the items
whose `item_id` is not yet processed.  Returns the new favorites, the
Source contents afterwards, and the trace. -/
def loadAndFilter (w : World) (limit : Nat) (processed : List String) (skipBrowser : Bool) :
    List FavoriteItem × List FavoriteItem × List Event :=
  if skipBrowser then ([], w.source, [])
  else
    let fetched := fetchF w.source limit
    let stale := fetched.filter (fun it => processed.contains it.item_id)
    if stale.isEmpty then
      (fetched.filter (fun it => !processed.contains it.item_id), w.source, [.fetch fetched])
    else
      let sc := staleCleanup w.deleteOk w.source stale
      let fetched2 := fetchF sc.1 limit
      (fetched2.filter (fun it => !processed.contains it.item_id), sc.1,
        .fetch fetched :: sc.2 ++ [.fetch fetched2])

/-- The enrichment loop of `_process_new_favorites`: enumerate the new
favorites, break once `dry_run and i >= limit`, and for each item either
keep the formatted note and mark the id, or log and skip. -/
def processNewLoop (cfg : Config) (gem : FavoriteItem → GeminiResponse) (limit : Nat)
    (dryRun : Bool) : Nat → List FavoriteItem → List AnkiNote × List String × List Event
  | _, [] => ([], [], [])
  | i, item :: rest =>
    if dryRun ∧ limit ≤ i then ([], [], [])
    else
      match decodeGemini item.item_id (gem item) with
      | some p =>
        let (notes, ids, evs) := processNewLoop cfg gem limit dryRun (i + 1) rest
        (formatNoteFor cfg p :: notes, insertId ids item.item_id, .geminiCall item true :: evs)
      | none =>
        let (notes, ids, evs) := processNewLoop cfg gem limit dryRun (i + 1) rest
        (notes, ids, .geminiCall item false :: evs)

/-- The write loop of `_add_notes_to_anki`: note `i` is paired with
`new_favorites[i]` (the unfiltered new-favorites list), a non-`None`
`add_note` result appends that favorite to the successfully-added list.
The `(_ :: _, [])` case is where Python's `new_favorites[i]` would raise
`IndexError`; it is unreachable from `run_once`, which always passes at
least as many favorites as notes. -/
def addLoop (anki : AnkiNote → Option Nat) :
    List AnkiNote → List FavoriteItem → List FavoriteItem × List Event
  | [], _ => ([], [])
  | note :: notes, fav :: favs =>
    let r := anki note
    let (succ, evs) := addLoop anki notes favs
    (if r.isSome then fav :: succ else succ, .ankiWrite note fav r :: evs)
  | _ :: _, [] => ([], [])

/-- `_add_notes_to_anki`: ensure both deck/model targets, write the notes
one by one, merge the ids of the successfully added favorites into the
processed set, and save the ledger once.  Returns the successfully added
favorites, the ledger file afterwards, and the trace. -/
def addNotesToAnki (w : World) (notes : List AnkiNote) (newFavs : List FavoriteItem)
    (processed : List String) : List FavoriteItem × FileState × List Event :=
  let al := addLoop w.anki notes newFavs
  let merged := al.1.foldl (fun s it => insertId s it.item_id) processed
  (al.1, save_ids w.ledgerWriteOk w.ledgerFile merged,
    .ensureTarget w.cfg.wordDeck w.cfg.wordModel
      :: .ensureTarget w.cfg.sentenceDeck w.cfg.sentenceModel
      :: al.2 ++ [.ledgerSave (sortDedup merged)])

/-- `_delete_processed_favorites`' deletion loop over the successfully
added items. -/
def commitDeletes (delOk : FavoriteItem → Bool) :
    List FavoriteItem → List FavoriteItem → List FavoriteItem × List Event
  | src, [] => (src, [])
  | src, item :: rest =>
    let ok := delOk item
    let src1 := if ok then eraseFirstByText src item.text else src
    let (src2, evs) := commitDeletes delOk src1 rest
    (src2, .deleteCommitted item ok :: evs)

/-- `run_once` (`src/main.py`): load the ledger, fetch and filter, return
early when nothing is new, enrich (constructing the `GeminiProcessor`
first, which raises on a missing API key), return early when nothing was
enriched, stop before any commit when `dry_run`, otherwise write the
notes, persist the ledger once, and delete the committed items. -/
def runOnce (w : World) (limit : Nat) (dryRun skipBrowser : Bool) : PassResult :=
  let processed := load_ids_list w.ledgerFile
  let lf := loadAndFilter w limit processed skipBrowser
  if lf.1.isEmpty then ⟨w.ledgerFile, lf.2.1, lf.2.2, none⟩
  else if w.apiKey = "" then ⟨w.ledgerFile, lf.2.1, lf.2.2, some .missingApiKey⟩
  else
    let pn := processNewLoop w.cfg w.gemini limit dryRun 0 lf.1
    if pn.1.isEmpty then ⟨w.ledgerFile, lf.2.1, lf.2.2 ++ pn.2.2, none⟩
    else if dryRun then ⟨w.ledgerFile, lf.2.1, lf.2.2 ++ pn.2.2, none⟩
    else
      let an := addNotesToAnki w pn.1 lf.1 processed
      let cd :=
        if skipBrowser then (lf.2.1, []) else commitDeletes w.deleteOk lf.2.1 an.1
      ⟨an.2.1, cd.1, lf.2.2 ++ pn.2.2 ++ an.2.2 ++ cd.2, none⟩

/-! ### Trace-shape lemmas for the pass segments -/

theorem staleCleanup_events (delOk : FavoriteItem → Bool) (items : List FavoriteItem) :
    ∀ src, ∀ e ∈ (staleCleanup delOk src items).2, ∃ it ok, e = .deleteStale it ok ∧ it ∈ items := by
  induction items with
  | nil => intro src e he; simp [staleCleanup] at he
  | cons item rest ih =>
    intro src e he
    simp only [staleCleanup] at he
    rcases List.mem_cons.mp he with h1 | h1
    · exact ⟨item, delOk item, h1, List.mem_cons_self _ _⟩
    · obtain ⟨it, ok, heq, hmem⟩ := ih _ e h1
      exact ⟨it, ok, heq, List.mem_cons_of_mem _ hmem⟩

theorem staleCleanup_count (delOk : FavoriteItem → Bool) (items : List FavoriteItem)
    (item : FavoriteItem) : ∀ src,
    ((staleCleanup delOk src items).2.countP
      (fun e => match e with | .deleteStale it _ => it == item | _ => false)) = items.count item := by
  induction items with
  | nil => intro src; simp [staleCleanup]
  | cons x rest ih =>
    intro src
    simp only [staleCleanup, List.countP_cons, ih]
    rcases eq_or_ne x item with h | h
    · subst h; simp [List.count_cons]
    · simp [List.count_cons, h, beq_iff_eq]

theorem processNewLoop_events (cfg : Config) (gem : FavoriteItem → GeminiResponse)
    (limit : Nat) (dryRun : Bool) (favs : List FavoriteItem) : ∀ i,
    ∀ e ∈ (processNewLoop cfg gem limit dryRun i favs).2.2,
      ∃ it ok, e = .geminiCall it ok ∧ it ∈ favs := by
  induction favs with
  | nil => intro i e he; simp [processNewLoop] at he
  | cons item rest ih =>
    intro i e he
    simp only [processNewLoop] at he
    split at he
    · simp at he
    · split at he
      all_goals
        rcases List.mem_cons.mp he with h1 | h1
        · exact ⟨item, _, h1, List.mem_cons_self _ _⟩
        · obtain ⟨it, ok, heq, hmem⟩ := ih _ e h1
          exact ⟨it, ok, heq, List.mem_cons_of_mem _ hmem⟩

theorem processNewLoop_evs_length (cfg : Config) (gem : FavoriteItem → GeminiResponse)
    (limit : Nat) (dryRun : Bool) (favs : List FavoriteItem) : ∀ i,
    (processNewLoop cfg gem limit dryRun i favs).2.2.length ≤ favs.length := by
  induction favs with
  | nil => intro i; simp [processNewLoop]
  | cons item rest ih =>
    intro i
    simp only [processNewLoop]
    split
    · simp
    · split <;> simpa using Nat.succ_le_succ (ih (i + 1))

theorem processNewLoop_notes_length (cfg : Config) (gem : FavoriteItem → GeminiResponse)
    (limit : Nat) (dryRun : Bool) (favs : List FavoriteItem) : ∀ i,
    (processNewLoop cfg gem limit dryRun i favs).1.length ≤ favs.length := by
  induction favs with
  | nil => intro i; simp [processNewLoop]
  | cons item rest ih =>
    intro i
    simp only [processNewLoop]
    split
    · simp
    · split
      · simpa using Nat.succ_le_succ (ih (i + 1))
      · simpa using Nat.le_succ_of_le (ih (i + 1))

theorem addLoop_events (anki : AnkiNote → Option Nat) :
    ∀ notes favs, ∀ e ∈ (addLoop anki notes favs).2,
      ∃ n it r, e = .ankiWrite n it r ∧ it ∈ favs := by
  intro notes
  induction notes with
  | nil => intro favs e he; simp [addLoop] at he
  | cons note rest ih =>
    intro favs e he
    match favs with
    | [] => simp [addLoop] at he
    | fav :: favRest =>
      simp only [addLoop] at he
      rcases List.mem_cons.mp he with h1 | h1
      · exact ⟨note, fav, anki note, h1, List.mem_cons_self _ _⟩
      · obtain ⟨n, it, r, heq, hmem⟩ := ih favRest e h1
        exact ⟨n, it, r, heq, List.mem_cons_of_mem _ hmem⟩

theorem addLoop_evs_length (anki : AnkiNote → Option Nat) :
    ∀ notes favs, (addLoop anki notes favs).2.length ≤ notes.length := by
  intro notes
  induction notes with
  | nil => intro favs; simp [addLoop]
  | cons note rest ih =>
    intro favs
    match favs with
    | [] => simp [addLoop]
    | fav :: favRest => simpa [addLoop] using Nat.succ_le_succ (ih favRest)

theorem addLoop_succ_subset (anki : AnkiNote → Option Nat) :
    ∀ notes favs, ∀ it ∈ (addLoop anki notes favs).1, it ∈ favs := by
  intro notes
  induction notes with
  | nil => intro favs it hit; simp [addLoop] at hit
  | cons note rest ih =>
    intro favs it hit
    match favs with
    | [] => simp [addLoop] at hit
    | fav :: favRest =>
      simp only [addLoop] at hit
      split at hit
      · rcases List.mem_cons.mp hit with h1 | h1
        · exact h1 ▸ List.mem_cons_self _ _
        · exact List.mem_cons_of_mem _ (ih favRest it h1)
      · exact List.mem_cons_of_mem _ (ih favRest it hit)

theorem commitDeletes_events (delOk : FavoriteItem → Bool) (items : List FavoriteItem) :
    ∀ src, ∀ e ∈ (commitDeletes delOk src items).2,
      ∃ it ok, e = .deleteCommitted it ok ∧ it ∈ items := by
  induction items with
  | nil => intro src e he; simp [commitDeletes] at he
  | cons item rest ih =>
    intro src e he
    simp only [commitDeletes] at he
    rcases List.mem_cons.mp he with h1 | h1
    · exact ⟨item, delOk item, h1, List.mem_cons_self _ _⟩
    · obtain ⟨it, ok, heq, hmem⟩ := ih _ e h1
      exact ⟨it, ok, heq, List.mem_cons_of_mem _ hmem⟩

theorem loadAndFilter_events (w : World) (limit : Nat) (processed : List String)
    (skipBrowser : Bool) :
    ∀ e ∈ (loadAndFilter w limit processed skipBrowser).2.2,
      (e.isFetch || e.isDeleteStale) = true := by
  intro e he
  simp only [loadAndFilter] at he
  split at he
  · simp at he
  · split at he
    · simp only [List.mem_singleton] at he
      subst he; rfl
    · rcases List.mem_cons.mp he with h1 | h1
      · subst h1; rfl
      · rcases List.mem_append.mp h1 with h2 | h2
        · obtain ⟨it, ok, heq, -⟩ := staleCleanup_events w.deleteOk _ _ e h2
          subst heq; rfl
        · simp only [List.mem_singleton] at h2
          subst h2; rfl

theorem loadAndFilter_new_unprocessed (w : World) (limit : Nat) (processed : List String)
    (skipBrowser : Bool) :
    ∀ it ∈ (loadAndFilter w limit processed skipBrowser).1,
      processed.contains it.item_id = false := by
  intro it hit
  simp only [loadAndFilter] at hit
  split at hit
  · simp at hit
  · split at hit <;>
    · have := (List.mem_filter.mp hit).2
      simpa using this

theorem fetchF_length_le (src : List FavoriteItem) (limit : Nat) (h : limit ≠ 0) :
    (fetchF src limit).length ≤ limit := by
  simp only [fetchF, if_neg h]
  simpa using List.length_take_le limit src

theorem loadAndFilter_new_length (w : World) (limit : Nat) (processed : List String)
    (skipBrowser : Bool) (h : limit ≠ 0) :
    (loadAndFilter w limit processed skipBrowser).1.length ≤ limit := by
  simp only [loadAndFilter]
  split
  · simp
  · split
    · exact le_trans (List.length_filter_le _ _) (fetchF_length_le _ _ h)
    · exact le_trans (List.length_filter_le _ _) (fetchF_length_le _ _ h)

/-- `True` iff no `deleteCommitted` event occurs before the first
`ledgerSave` event (scanning left to right). -/
def noCommitBeforeSave : List Event → Bool
  | [] => true
  | e :: rest => if e.isLedgerSave then true else !e.isDeleteCommitted && noCommitBeforeSave rest

theorem noCommitBeforeSave_append (xs ys : List Event)
    (h : ∀ e ∈ xs, e.isDeleteCommitted = false ∧ e.isLedgerSave = false) :
    noCommitBeforeSave (xs ++ ys) = noCommitBeforeSave ys := by
  induction xs with
  | nil => rfl
  | cons e rest ih =>
    obtain ⟨h1, h2⟩ := h e (List.mem_cons_self _ _)
    simp only [List.cons_append, noCommitBeforeSave, h1, h2, if_false, Bool.not_false,
      Bool.true_and]
    exact ih (fun e' he' => h e' (List.mem_cons_of_mem _ he'))

theorem noCommitBeforeSave_of_no_commit (xs : List Event)
    (h : ∀ e ∈ xs, e.isDeleteCommitted = false) : noCommitBeforeSave xs = true := by
  induction xs with
  | nil => rfl
  | cons e rest ih =>
    simp only [noCommitBeforeSave]
    split
    · rfl
    · simp only [h e (List.mem_cons_self _ _), Bool.not_false, Bool.true_and]
      exact ih (fun e' he' => h e' (List.mem_cons_of_mem _ he'))

/-- All ids appearing in `ledgerSave` events of a trace. -/
def savedIds : List Event → List String
  | [] => []
  | .ledgerSave ids :: rest => ids ++ savedIds rest
  | .fetch _ :: rest => savedIds rest
  | .deleteStale _ _ :: rest => savedIds rest
  | .geminiCall _ _ :: rest => savedIds rest
  | .ensureTarget _ _ :: rest => savedIds rest
  | .ankiWrite _ _ _ :: rest => savedIds rest
  | .deleteCommitted _ _ :: rest => savedIds rest

theorem insertId_contains_self (s : List String) (id : String) :
    (insertId s id).contains id = true := by
  simp only [insertId]
  split
  · assumption
  · simp [List.elem_iff]

theorem insertId_contains_mono (s : List String) (id x : String)
    (h : s.contains x = true) : (insertId s id).contains x = true := by
  simp only [insertId]
  split
  · exact h
  · simp only [List.elem_iff] at h ⊢
    exact List.mem_append_left _ h

theorem foldl_insertId_mono (l : List FavoriteItem) :
    ∀ s : List String, ∀ x : String, s.contains x = true →
      (l.foldl (fun s it => insertId s it.item_id) s).contains x = true := by
  induction l with
  | nil => intro s x h; simpa using h
  | cons y rest ih =>
    intro s x h
    simp only [List.foldl_cons]
    exact ih _ x (insertId_contains_mono s y.item_id x h)

theorem foldl_insertId_contains (l : List FavoriteItem) :
    ∀ s : List String, ∀ it ∈ l,
      (l.foldl (fun s it => insertId s it.item_id) s).contains it.item_id = true := by
  induction l with
  | nil => intro s it hit; simp at hit
  | cons x rest ih =>
    intro s it hit
    rcases List.mem_cons.mp hit with h1 | h1
    · subst h1
      simp only [List.foldl_cons]
      exact foldl_insertId_mono rest _ _ (insertId_contains_self s it.item_id)
    · exact ih _ it h1

theorem sortDedup_contains (l : List String) (x : String) :
    (sortDedup l).contains x = l.contains x := by
  have hmem : x ∈ sortDedup l ↔ x ∈ l := by
    rw [← List.mem_toFinset, sortDedup_toFinset, List.mem_toFinset]
  rw [Bool.eq_iff_iff]
  simpa [List.elem_iff] using hmem

/-! ### Claim theorems -/

/-- C8: for every state of the ledger backing file — absent, unreadable, not
valid JSON, or valid JSON that is not a list — `load_ids` returns the empty
set (exceptions are caught inside, never raised to the caller); for a valid
JSON list it returns the set of the list's elements converted to strings. -/
theorem C8_load_ids_cases :
    load_ids .absent = ∅ ∧ load_ids .unreadable = ∅ ∧ load_ids .notJson = ∅ ∧
    load_ids (.json .null) = ∅ ∧ (∀ b, load_ids (.json (.bool b)) = ∅) ∧
    (∀ n, load_ids (.json (.num n)) = ∅) ∧ (∀ s, load_ids (.json (.str s)) = ∅) ∧
    (∀ fields, load_ids (.json (.obj fields)) = ∅) ∧
    (∀ xs, load_ids (.json (.arr xs)) = (xs.map pyStr).toFinset) :=
  ⟨rfl, rfl, rfl, rfl, fun _ => rfl, fun _ => rfl, fun _ => rfl, fun _ => rfl, fun _ => rfl⟩

/-- C10: a successful `save_ids` writes the sorted, deduplicated JSON array
of the ids, and `load_ids` of the saved file returns exactly the set of
those ids, for every starting file and every id list. -/
theorem C10_save_load_round_trip (old : FileState) (ids : List String) :
    save_ids true old ids = .json (.arr ((sortDedup ids).map JsonVal.str)) ∧
    (sortDedup ids).Pairwise (fun a b : String => a ≤ b) ∧
    (sortDedup ids).Nodup ∧
    load_ids (save_ids true old ids) = ids.toFinset := by
  refine ⟨rfl, sortDedup_sorted ids, sortDedup_nodup ids, ?_⟩
  have h : ((sortDedup ids).map JsonVal.str).map pyStr = sortDedup ids := by
    rw [List.map_map]
    exact List.map_id _
  calc load_ids (save_ids true old ids)
      = (((sortDedup ids).map JsonVal.str).map pyStr).toFinset := rfl
    _ = (sortDedup ids).toFinset := by rw [h]
    _ = ids.toFinset := sortDedup_toFinset ids

/-- C9: the `item_id` the fetch loop assigns is a pure function of the
stripped `(text, translation)` pair alone — two fetched items with the same
text and translation have the same id, whatever pages, limits or positions
they came from. -/
theorem C9_item_id_deterministic (es1 es2 : List RawElement) (l1 l2 : Nat)
    (a b : FavoriteItem) (ha : a ∈ fetchFavorites es1 l1) (hb : b ∈ fetchFavorites es2 l2)
    (ht : a.text = b.text) (htr : a.translation = b.translation) :
    a.item_id = b.item_id := by
  rw [fetchLoop_item_id l1 0 es1 a ha, fetchLoop_item_id l2 0 es2 b hb, ht, htr]

/-- Witness for C9: the same `("hi", "yo")` pair fetched from two different
pages, at different positions and with different limits, gets the same id. -/
theorem C9_witness :
    (⟨"hi", "yo", mkItemId "hi" "yo"⟩ : FavoriteItem) ∈ fetchFavorites [⟨"hi", "yo"⟩] 0 ∧
    (⟨"hi", "yo", mkItemId "hi" "yo"⟩ : FavoriteItem) ∈
      fetchFavorites [⟨"zz", "qq"⟩, ⟨" hi ", "yo"⟩] 5 ∧
    (⟨"hi", "yo", mkItemId "hi" "yo"⟩ : FavoriteItem).item_id =
      (⟨"hi", "yo", mkItemId "hi" "yo"⟩ : FavoriteItem).item_id := by
  have h1 : fetchFavorites [⟨"hi", "yo"⟩] 0 = [⟨"hi", "yo", mkItemId "hi" "yo"⟩] := rfl
  have h2 : fetchFavorites [⟨"zz", "qq"⟩, ⟨" hi ", "yo"⟩] 5 =
      [⟨"zz", "qq", mkItemId "zz" "qq"⟩, ⟨"hi", "yo", mkItemId "hi" "yo"⟩] := rfl
  have m1 : (⟨"hi", "yo", mkItemId "hi" "yo"⟩ : FavoriteItem) ∈ fetchFavorites [⟨"hi", "yo"⟩] 0 := by
    rw [h1]; exact List.mem_singleton.mpr rfl
  have m2 : (⟨"hi", "yo", mkItemId "hi" "yo"⟩ : FavoriteItem) ∈
      fetchFavorites [⟨"zz", "qq"⟩, ⟨" hi ", "yo"⟩] 5 := by
    rw [h2]; exact List.mem_cons_of_mem _ (List.mem_singleton.mpr rfl)
  exact ⟨m1, m2, C9_item_id_deterministic _ _ 0 5 _ _ m1 m2 rfl rfl⟩

/-- Counterexample for C5: a word response carrying only `english_word`
still produces a variant — the three absent required fields are silently
defaulted to `""` rather than the decode failing closed to `None`. -/
theorem C5_counterexample :
    decodeGemini "id1"
        (.json (.obj [("type", .str "word"), ("data", .obj [("english_word", .str "cat")])])) =
      some ⟨"id1", .word ⟨.str "cat", .str "", .str "", .str ""⟩⟩ ∧
    dictGet [("english_word", JsonVal.str "cat")] "example_sentence" = none ∧
    dictGet [("english_word", JsonVal.str "cat")] "japanese_meaning" = none ∧
    dictGet [("english_word", JsonVal.str "cat")] "example_translation" = none :=
  ⟨rfl, rfl, rfl, rfl⟩

/-- C5 amended: the decode step either returns `None` (failed call,
unparseable response, non-object response, missing or falsy `type`/`data`,
unrecognised `type`, or non-object `data`), or yields a variant whose every
field is the response's value when the key is present and the empty string
otherwise; no other shape is ever produced. -/
theorem C5_decode_shape (id : String) (resp : GeminiResponse) :
    decodeGemini id resp = none ∨
    (∃ fields d, resp = .json (.obj fields) ∧
      jsonEqStr (dictGet fields "type") "word" = true ∧
      dictGet fields "data" = some (.obj d) ∧
      decodeGemini id resp = some ⟨id, .word ⟨dictGetD d "english_word",
        dictGetD d "example_sentence", dictGetD d "japanese_meaning",
        dictGetD d "example_translation"⟩⟩) ∨
    (∃ fields d, resp = .json (.obj fields) ∧
      jsonEqStr (dictGet fields "type") "sentence" = true ∧
      dictGet fields "data" = some (.obj d) ∧
      decodeGemini id resp = some ⟨id, .sentence ⟨dictGetD d "japanese_sentence",
        dictGetD d "english_sentence"⟩⟩) := by
  cases resp with
  | apiError => exact Or.inl rfl
  | unparseable => exact Or.inl rfl
  | json v =>
    cases v with
    | obj fields =>
      simp only [decodeGemini]
      split
      · exact Or.inl rfl
      · split
        · rename_i hword
          rcases hdata : dictGet fields "data" with _ | d
          · refine Or.inl ?_
            simp [hdata]
          · cases d with
            | obj dd =>
              refine Or.inr (Or.inl ⟨fields, dd, rfl, hword, hdata, ?_⟩)
              simp [hdata]
            | null => exact Or.inl (by simp [hdata])
            | bool b => exact Or.inl (by simp [hdata])
            | num n => exact Or.inl (by simp [hdata])
            | str s => exact Or.inl (by simp [hdata])
            | arr xs => exact Or.inl (by simp [hdata])
        · split
          · rename_i hsent
            rcases hdata : dictGet fields "data" with _ | d
            · refine Or.inl ?_
              simp [hdata]
            · cases d with
              | obj dd =>
                refine Or.inr (Or.inr ⟨fields, dd, rfl, hsent, hdata, ?_⟩)
                simp [hdata]
              | null => exact Or.inl (by simp [hdata])
              | bool b => exact Or.inl (by simp [hdata])
              | num n => exact Or.inl (by simp [hdata])
              | str s => exact Or.inl (by simp [hdata])
              | arr xs => exact Or.inl (by simp [hdata])
          · exact Or.inl rfl
    | null => exact Or.inl rfl
    | bool b => exact Or.inl rfl
    | num n => exact Or.inl rfl
    | str s => exact Or.inl rfl
    | arr xs => exact Or.inl rfl

def Event.isEnsureTarget : Event → Bool
  | .ensureTarget _ _ => true
  | _ => false

theorem fetch_or_stale_shape {e : Event} (h : (e.isFetch || e.isDeleteStale) = true) :
    (∃ r, e = .fetch r) ∨ (∃ it ok, e = .deleteStale it ok) := by
  cases e with
  | fetch r => exact Or.inl ⟨r, rfl⟩
  | deleteStale it ok => exact Or.inr ⟨it, ok, rfl⟩
  | geminiCall it ok => simp [Event.isFetch, Event.isDeleteStale] at h
  | ensureTarget d m => simp [Event.isFetch, Event.isDeleteStale] at h
  | ankiWrite n it r => simp [Event.isFetch, Event.isDeleteStale] at h
  | ledgerSave ids => simp [Event.isFetch, Event.isDeleteStale] at h
  | deleteCommitted it ok => simp [Event.isFetch, Event.isDeleteStale] at h

theorem loadAndFilter_countP (w : World) (limit : Nat) (processed : List String)
    (skipBrowser : Bool) (p : Event → Bool) (hf : ∀ r, p (.fetch r) = false)
    (hs : ∀ it ok, p (.deleteStale it ok) = false) :
    (loadAndFilter w limit processed skipBrowser).2.2.countP p = 0 := by
  apply List.countP_eq_zero.mpr
  intro e he
  rcases fetch_or_stale_shape (loadAndFilter_events w limit processed skipBrowser e he) with
    ⟨r, rfl⟩ | ⟨it, ok, rfl⟩
  · simp [hf]
  · simp [hs]

theorem processNewLoop_countP (cfg : Config) (gem : FavoriteItem → GeminiResponse)
    (limit : Nat) (dryRun : Bool) (i : Nat) (favs : List FavoriteItem) (p : Event → Bool)
    (hg : ∀ it ok, p (.geminiCall it ok) = false) :
    (processNewLoop cfg gem limit dryRun i favs).2.2.countP p = 0 := by
  apply List.countP_eq_zero.mpr
  intro e he
  obtain ⟨it, ok, rfl, -⟩ := processNewLoop_events cfg gem limit dryRun favs i e he
  simp [hg]

theorem addLoop_countP (anki : AnkiNote → Option Nat) (notes : List AnkiNote)
    (favs : List FavoriteItem) (p : Event → Bool)
    (hw : ∀ n it r, p (.ankiWrite n it r) = false) :
    (addLoop anki notes favs).2.countP p = 0 := by
  apply List.countP_eq_zero.mpr
  intro e he
  obtain ⟨n, it, r, rfl, -⟩ := addLoop_events anki notes favs e he
  simp [hw]

theorem commitDeletes_countP (delOk : FavoriteItem → Bool) (src : List FavoriteItem)
    (items : List FavoriteItem) (p : Event → Bool)
    (hd : ∀ it ok, p (.deleteCommitted it ok) = false) :
    (commitDeletes delOk src items).2.countP p = 0 := by
  apply List.countP_eq_zero.mpr
  intro e he
  obtain ⟨it, ok, rfl, -⟩ := commitDeletes_events delOk items src e he
  simp [hd]

theorem addNotesToAnki_countP (w : World) (notes : List AnkiNote)
    (favs : List FavoriteItem) (processed : List String) (p : Event → Bool)
    (he : ∀ d m, p (.ensureTarget d m) = false)
    (hw : ∀ n it r, p (.ankiWrite n it r) = false)
    (hsa : ∀ ids, p (.ledgerSave ids) = false) :
    (addNotesToAnki w notes favs processed).2.2.countP p = 0 := by
  simp only [addNotesToAnki, List.countP_cons, List.countP_append, he, hw, hsa,
    addLoop_countP w.anki notes favs p hw]
  simp [List.countP, List.countP.go, hsa]

/-! ### Concrete worlds used by the counterexample and witness theorems -/

def itemAlpha : FavoriteItem := ⟨"alpha", "あ", "idA"⟩

def itemBeta : FavoriteItem := ⟨"beta", "ぶ", "idB"⟩

def cfgC : Config := ⟨"WD", "WM", "SD", "SM"⟩

/-- A well-formed sentence response. -/
def respSentence : JsonVal :=
  .obj [("type", .str "sentence"),
        ("data", .obj [("japanese_sentence", .str "ぶ"), ("english_sentence", .str "beta")])]

/-- Enrichment fails on `itemAlpha`, succeeds on `itemBeta`; every write and
delete succeeds; the ledger starts empty. -/
def worldC1 : World :=
  ⟨cfgC, .absent, [itemAlpha, itemBeta], "k",
    fun it => if it.item_id == "idB" then .json respSentence else .apiError,
    fun _ => some 1, fun _ => true, true⟩

/-- C1 is violated by the code: with enrichment failing on the first new item
and succeeding on the second, `_add_notes_to_anki` pairs the one note —
built from `itemBeta` — with `new_favorites[0] = itemAlpha`.  The skipped
`itemAlpha` gets the ledger entry and the Source deletion, while `itemBeta`,
whose flashcard is the one the Sink accepted, gets neither. -/
theorem C1_pairing_bug :
    decodeGemini itemAlpha.item_id (worldC1.gemini itemAlpha) = none ∧
    (runOnce worldC1 10 false false).trace =
      [.fetch [itemAlpha, itemBeta], .geminiCall itemAlpha false, .geminiCall itemBeta true,
       .ensureTarget "WD" "WM", .ensureTarget "SD" "SM",
       .ankiWrite (format_sentence_note cfgC ⟨.str "ぶ", .str "beta"⟩) itemAlpha (some 1),
       .ledgerSave ["idA"], .deleteCommitted itemAlpha true] ∧
    load_ids (runOnce worldC1 10 false false).ledgerFile = {"idA"} ∧
    (runOnce worldC1 10 false false).source = [itemBeta] ∧
    (runOnce worldC1 10 false false).err = none :=
  ⟨rfl, rfl, by decide, rfl, rfl⟩

/-- One new item, enrichment and write succeed. -/
def worldC2 : World :=
  ⟨cfgC, .absent, [itemAlpha], "k", fun _ => .json respSentence, fun _ => some 1,
    fun _ => true, true⟩

/-- Counterexample for C2 as stated: with `limit = 0` (a falsy limit) the
candidate-new set has 1 > 0 items, yet a non-dry-run pass enriches and
writes 1 > `limit` of them — the enrichment cap `if dry_run and i >= limit`
only applies to dry runs, and the fetch cap `if limit and i >= limit` is
disabled by a falsy limit. -/
theorem C2_counterexample :
    (loadAndFilter worldC2 0 (load_ids_list worldC2.ledgerFile) false).1.length = 1 ∧
    (runOnce worldC2 0 false false).trace.countP Event.isGeminiCall = 1 ∧
    (runOnce worldC2 0 false false).trace.countP Event.isAnkiWrite = 1 :=
  ⟨rfl, rfl, rfl⟩

/-- The ledger already holds `itemAlpha`'s id and the Source still holds the
item: a stale leftover. -/
def worldC3 : World :=
  ⟨cfgC, .json (.arr [.str "idA"]), [itemAlpha], "k", fun _ => .apiError, fun _ => some 1,
    fun _ => true, true⟩

/-- Counterexample for C3 as stated: a dry-run pass still deletes stale items
from the Source — `_load_and_filter_favorites` runs its cleanup before
`run_once` ever consults the `dry_run` flag — so the Source is not unchanged
after the pass. -/
theorem C3_counterexample :
    worldC3.source = [itemAlpha] ∧
    (runOnce worldC3 10 true false).source = [] ∧
    (runOnce worldC3 10 true false).trace.countP Event.isDeleteStale = 1 :=
  ⟨rfl, rfl, rfl⟩

/-- Missing enrichment credential, with a stale item and a new item in the
Source. -/
def worldC4 : World :=
  ⟨cfgC, .json (.arr [.str "idA"]), [itemAlpha, itemBeta], "",
    fun _ => .json respSentence, fun _ => some 1, fun _ => true, true⟩

/-- Counterexample for C4 as stated: the missing-credential failure is
raised, but only after the ledger has been read and the Source has been
fetched twice with a stale-cleanup deletion in between — not at startup
before the pass begins. -/
theorem C4_counterexample :
    (runOnce worldC4 10 false false).err = some .missingApiKey ∧
    (runOnce worldC4 10 false false).trace.countP Event.isFetch = 2 ∧
    (runOnce worldC4 10 false false).trace.countP Event.isDeleteStale = 1 :=
  ⟨rfl, rfl, rfl⟩

/-- C3 amended: a dry-run pass never writes a note, never touches a Sink
target, never saves the ledger and never deletes a committed item — the
ledger file is unchanged — but stale-cleanup Source deletions can still
occur (see the counterexample). -/
theorem C3_dry_run_no_commits (w : World) (limit : Nat) (skipBrowser : Bool) :
    (runOnce w limit true skipBrowser).ledgerFile = w.ledgerFile ∧
    (runOnce w limit true skipBrowser).trace.countP Event.isAnkiWrite = 0 ∧
    (runOnce w limit true skipBrowser).trace.countP Event.isEnsureTarget = 0 ∧
    (runOnce w limit true skipBrowser).trace.countP Event.isLedgerSave = 0 ∧
    (runOnce w limit true skipBrowser).trace.countP Event.isDeleteCommitted = 0 := by
  have hlf : ∀ p : Event → Bool, (∀ r, p (.fetch r) = false) →
      (∀ it ok, p (.deleteStale it ok) = false) →
      (loadAndFilter w limit (load_ids_list w.ledgerFile) skipBrowser).2.2.countP p = 0 :=
    fun p hf hs => loadAndFilter_countP w limit (load_ids_list w.ledgerFile) skipBrowser p hf hs
  simp only [runOnce]
  split
  · exact ⟨rfl, hlf _ (fun _ => rfl) (fun _ _ => rfl), hlf _ (fun _ => rfl) (fun _ _ => rfl),
      hlf _ (fun _ => rfl) (fun _ _ => rfl), hlf _ (fun _ => rfl) (fun _ _ => rfl)⟩
  · split
    · exact ⟨rfl, hlf _ (fun _ => rfl) (fun _ _ => rfl), hlf _ (fun _ => rfl) (fun _ _ => rfl),
        hlf _ (fun _ => rfl) (fun _ _ => rfl), hlf _ (fun _ => rfl) (fun _ _ => rfl)⟩
    · split
      · refine ⟨rfl, ?_, ?_, ?_, ?_⟩ <;>
          rw [List.countP_append, hlf _ (fun _ => rfl) (fun _ _ => rfl),
            processNewLoop_countP _ _ _ _ _ _ _ (fun _ _ => rfl)]
      · simp only [if_true]
        refine ⟨trivial, ?_, ?_, ?_, ?_⟩ <;>
          rw [List.countP_append, hlf _ (fun _ => rfl) (fun _ _ => rfl),
            processNewLoop_countP _ _ _ _ _ _ _ (fun _ _ => rfl)]

/-- C4 amended: with the Enrichment credential missing, the pass performs no
enrichment call, no Sink call, no ledger save and no committed deletion, and
the ledger file is untouched; but the failure is raised from the enrichment
loop — after the ledger read and the fetch/stale-cleanup — and only when
there are new favorites (an empty candidate set ends the pass without ever
raising). -/
theorem C4_missing_key_guard (w : World) (limit : Nat) (dryRun skipBrowser : Bool)
    (h : w.apiKey = "") :
    (runOnce w limit dryRun skipBrowser).ledgerFile = w.ledgerFile ∧
    (runOnce w limit dryRun skipBrowser).trace.countP Event.isGeminiCall = 0 ∧
    (runOnce w limit dryRun skipBrowser).trace.countP Event.isAnkiWrite = 0 ∧
    (runOnce w limit dryRun skipBrowser).trace.countP Event.isEnsureTarget = 0 ∧
    (runOnce w limit dryRun skipBrowser).trace.countP Event.isLedgerSave = 0 ∧
    (runOnce w limit dryRun skipBrowser).trace.countP Event.isDeleteCommitted = 0 ∧
    (runOnce w limit dryRun skipBrowser).err =
      (if (loadAndFilter w limit (load_ids_list w.ledgerFile) skipBrowser).1.isEmpty
        then none else some .missingApiKey) := by
  have hlf : ∀ p : Event → Bool, (∀ r, p (.fetch r) = false) →
      (∀ it ok, p (.deleteStale it ok) = false) →
      (loadAndFilter w limit (load_ids_list w.ledgerFile) skipBrowser).2.2.countP p = 0 :=
    fun p hf hs => loadAndFilter_countP w limit (load_ids_list w.ledgerFile) skipBrowser p hf hs
  simp only [runOnce]
  split
  · exact ⟨rfl, hlf _ (fun _ => rfl) (fun _ _ => rfl), hlf _ (fun _ => rfl) (fun _ _ => rfl),
      hlf _ (fun _ => rfl) (fun _ _ => rfl), hlf _ (fun _ => rfl) (fun _ _ => rfl),
      hlf _ (fun _ => rfl) (fun _ _ => rfl), rfl⟩
  · exact ⟨rfl, hlf _ (fun _ => rfl) (fun _ _ => rfl), hlf _ (fun _ => rfl) (fun _ _ => rfl),
      hlf _ (fun _ => rfl) (fun _ _ => rfl), hlf _ (fun _ => rfl) (fun _ _ => rfl),
      hlf _ (fun _ => rfl) (fun _ _ => rfl), rfl⟩

/-- Witness for C4's amended theorem at `worldC4`. -/
theorem C4_witness :
    worldC4.apiKey = "" ∧
    (runOnce worldC4 10 false false).err =
      (if (loadAndFilter worldC4 10 (load_ids_list worldC4.ledgerFile) false).1.isEmpty
        then none else some .missingApiKey) :=
  ⟨rfl, (C4_missing_key_guard worldC4 10 false false rfl).2.2.2.2.2.2⟩

theorem addNotesToAnki_countP_write (w : World) (notes : List AnkiNote)
    (favs : List FavoriteItem) (processed : List String) :
    (addNotesToAnki w notes favs processed).2.2.countP Event.isAnkiWrite =
      (addLoop w.anki notes favs).2.countP Event.isAnkiWrite := by
  simp [addNotesToAnki, List.countP_cons, List.countP_append, Event.isAnkiWrite]

theorem cd_countP (delOk : FavoriteItem → Bool) (src succ alt : List FavoriteItem) (b : Bool)
    (p : Event → Bool) (hd : ∀ it ok, p (.deleteCommitted it ok) = false) :
    (if b = true then (alt, ([] : List Event)) else commitDeletes delOk src succ).2.countP p
      = 0 := by
  split
  · rfl
  · exact commitDeletes_countP delOk src succ p hd

/-- C2 amended: for every pass whose `limit` is at least 1 (a truthy limit),
at most `limit` items are enriched and at most `limit` notes are written,
whether or not dry-run is requested.  (With `limit = 0` the bound fails on a
non-dry run — see the counterexample — because only the dry-run branch caps
the enrichment loop and a falsy limit disables the fetch cap.) -/
theorem C2_limit_bound (w : World) (limit : Nat) (dryRun skipBrowser : Bool) (h : 1 ≤ limit) :
    (runOnce w limit dryRun skipBrowser).trace.countP Event.isGeminiCall ≤ limit ∧
    (runOnce w limit dryRun skipBrowser).trace.countP Event.isAnkiWrite ≤ limit := by
  have hne : limit ≠ 0 := by omega
  have hnew := loadAndFilter_new_length w limit (load_ids_list w.ledgerFile) skipBrowser hne
  have hlf : ∀ p : Event → Bool, (∀ r, p (.fetch r) = false) →
      (∀ it ok, p (.deleteStale it ok) = false) →
      (loadAndFilter w limit (load_ids_list w.ledgerFile) skipBrowser).2.2.countP p = 0 :=
    fun p hf hs => loadAndFilter_countP w limit (load_ids_list w.ledgerFile) skipBrowser p hf hs
  have hpn_le : ∀ favs : List FavoriteItem, ∀ dr : Bool,
      (processNewLoop w.cfg w.gemini limit dr 0 favs).2.2.countP Event.isGeminiCall ≤
        favs.length :=
    fun favs dr => le_trans (List.countP_le_length _) (processNewLoop_evs_length _ _ _ _ _ 0)
  simp only [runOnce]
  split
  · constructor <;> { rw [hlf _ (fun _ => rfl) (fun _ _ => rfl)]; exact Nat.zero_le _ }
  · split
    · constructor <;> { rw [hlf _ (fun _ => rfl) (fun _ _ => rfl)]; exact Nat.zero_le _ }
    · split
      · constructor
        · rw [List.countP_append, hlf _ (fun _ => rfl) (fun _ _ => rfl), Nat.zero_add]
          exact le_trans (hpn_le _ _) hnew
        · rw [List.countP_append, hlf _ (fun _ => rfl) (fun _ _ => rfl), Nat.zero_add,
            processNewLoop_countP _ _ _ _ _ _ _ (fun _ _ => rfl)]
          exact Nat.zero_le _
      · split
        · constructor
          · rw [List.countP_append, hlf _ (fun _ => rfl) (fun _ _ => rfl), Nat.zero_add]
            exact le_trans (hpn_le _ _) hnew
          · rw [List.countP_append, hlf _ (fun _ => rfl) (fun _ _ => rfl), Nat.zero_add,
              processNewLoop_countP _ _ _ _ _ _ _ (fun _ _ => rfl)]
            exact Nat.zero_le _
        · constructor
          · rw [List.countP_append, List.countP_append, List.countP_append,
              hlf _ (fun _ => rfl) (fun _ _ => rfl),
              addNotesToAnki_countP _ _ _ _ _ (fun _ _ => rfl) (fun _ _ _ => rfl) (fun _ => rfl),
              cd_countP _ _ _ _ _ _ (fun _ _ => rfl)]
            have := le_trans (hpn_le (loadAndFilter w limit (load_ids_list w.ledgerFile)
              skipBrowser).1 dryRun) hnew
            omega
          · rw [List.countP_append, List.countP_append, List.countP_append,
              hlf _ (fun _ => rfl) (fun _ _ => rfl),
              processNewLoop_countP _ _ _ _ _ _ _ (fun _ _ => rfl),
              addNotesToAnki_countP_write,
              cd_countP _ _ _ _ _ _ (fun _ _ => rfl)]
            have h1 := addLoop_evs_length w.anki
              (processNewLoop w.cfg w.gemini limit dryRun 0
                (loadAndFilter w limit (load_ids_list w.ledgerFile) skipBrowser).1).1
              (loadAndFilter w limit (load_ids_list w.ledgerFile) skipBrowser).1
            have h2 := processNewLoop_notes_length w.cfg w.gemini limit dryRun
              (loadAndFilter w limit (load_ids_list w.ledgerFile) skipBrowser).1 0
            have h3 := List.countP_le_length (l := (addLoop w.anki
              (processNewLoop w.cfg w.gemini limit dryRun 0
                (loadAndFilter w limit (load_ids_list w.ledgerFile) skipBrowser).1).1
              (loadAndFilter w limit (load_ids_list w.ledgerFile) skipBrowser).1).2)
              Event.isAnkiWrite
            omega

/-- Witness for C2's amended theorem: Scenario D's configuration —
`limit = 1` with two new items in the Source. -/
theorem C2_witness :
    (1 : Nat) ≤ 1 ∧
    ((runOnce ⟨cfgC, .absent, [itemAlpha, itemBeta], "k", fun _ => .json respSentence,
        fun _ => some 1, fun _ => true, true⟩ 1 false false).trace.countP
          Event.isGeminiCall ≤ 1 ∧
      (runOnce ⟨cfgC, .absent, [itemAlpha, itemBeta], "k", fun _ => .json respSentence,
        fun _ => some 1, fun _ => true, true⟩ 1 false false).trace.countP
          Event.isAnkiWrite ≤ 1) :=
  ⟨le_refl 1, C2_limit_bound _ 1 false false (le_refl 1)⟩

theorem savedIds_append (xs ys : List Event) :
    savedIds (xs ++ ys) = savedIds xs ++ savedIds ys := by
  induction xs with
  | nil => rfl
  | cons e rest ih => cases e <;> simp [savedIds, ih]

theorem savedIds_eq_nil (xs : List Event) (h : ∀ e ∈ xs, e.isLedgerSave = false) :
    savedIds xs = [] := by
  induction xs with
  | nil => rfl
  | cons e rest ih =>
    have h1 := h e (List.mem_cons_self _ _)
    have h2 := ih (fun e' he' => h e' (List.mem_cons_of_mem _ he'))
    cases e <;> simp_all [savedIds, Event.isLedgerSave]

theorem addNotesToAnki_trace_eq (w : World) (notes : List AnkiNote)
    (favs : List FavoriteItem) (processed : List String) :
    (addNotesToAnki w notes favs processed).2.2 =
      .ensureTarget w.cfg.wordDeck w.cfg.wordModel
        :: .ensureTarget w.cfg.sentenceDeck w.cfg.sentenceModel
        :: (addLoop w.anki notes favs).2
        ++ [.ledgerSave (sortDedup ((addLoop w.anki notes favs).1.foldl
              (fun s it => insertId s it.item_id) processed))] := rfl

theorem addNotesToAnki_succ_eq (w : World) (notes : List AnkiNote)
    (favs : List FavoriteItem) (processed : List String) :
    (addNotesToAnki w notes favs processed).1 = (addLoop w.anki notes favs).1 := rfl

theorem commit_trace_props (t lf pn al cd : List Event) (dA mA dB mB : String)
    (saved : List String)
    (ht : t = lf ++ pn ++ (.ensureTarget dA mA :: .ensureTarget dB mB :: al
      ++ [.ledgerSave saved]) ++ cd)
    (hlf : ∀ e ∈ lf, (e.isFetch || e.isDeleteStale) = true)
    (hpn : ∀ e ∈ pn, ∃ it ok, e = .geminiCall it ok)
    (hal : ∀ e ∈ al, ∃ n it r, e = .ankiWrite n it r)
    (hcd : ∀ e ∈ cd, ∃ it ok, e = .deleteCommitted it ok ∧ saved.contains it.item_id = true) :
    noCommitBeforeSave t = true ∧ t.countP Event.isLedgerSave ≤ 1 ∧
    (t.all (fun e => match e with
      | .deleteCommitted it _ => (savedIds t).contains it.item_id
      | _ => true)) = true := by
  have hsil : ∀ e ∈ lf ++ (pn ++ (Event.ensureTarget dA mA :: Event.ensureTarget dB mB :: al)),
      e.isDeleteCommitted = false ∧ e.isLedgerSave = false := by
    intro e he
    rcases List.mem_append.mp he with h1 | h1
    · rcases fetch_or_stale_shape (hlf e h1) with ⟨r, rfl⟩ | ⟨it, ok, rfl⟩ <;> exact ⟨rfl, rfl⟩
    · rcases List.mem_append.mp h1 with h2 | h2
      · obtain ⟨it, ok, rfl⟩ := hpn e h2
        exact ⟨rfl, rfl⟩
      · rcases List.mem_cons.mp h2 with h3 | h3
        · subst h3; exact ⟨rfl, rfl⟩
        · rcases List.mem_cons.mp h3 with h4 | h4
          · subst h4; exact ⟨rfl, rfl⟩
          · obtain ⟨n, it, r, rfl⟩ := hal e h4
            exact ⟨rfl, rfl⟩
  have heq : t = (lf ++ (pn ++ (Event.ensureTarget dA mA :: Event.ensureTarget dB mB :: al)))
      ++ (Event.ledgerSave saved :: cd) := by
    rw [ht]; simp [List.append_assoc]
  have hlf_nosave : ∀ e ∈ lf, e.isLedgerSave = false := by
    intro e he
    rcases fetch_or_stale_shape (hlf e he) with ⟨r, rfl⟩ | ⟨it, ok, rfl⟩ <;> rfl
  have hpn_nosave : ∀ e ∈ pn, e.isLedgerSave = false := by
    intro e he; obtain ⟨it, ok, rfl⟩ := hpn e he; rfl
  have hal_nosave : ∀ e ∈ al, e.isLedgerSave = false := by
    intro e he; obtain ⟨n, it, r, rfl⟩ := hal e he; rfl
  have hcd_nosave : ∀ e ∈ cd, e.isLedgerSave = false := by
    intro e he; obtain ⟨it, ok, rfl, -⟩ := hcd e he; rfl
  have hsaved : savedIds t = saved := by
    rw [ht, savedIds_append, savedIds_append, savedIds_append,
      savedIds_eq_nil lf hlf_nosave, savedIds_eq_nil pn hpn_nosave]
    have h1 : savedIds (Event.ensureTarget dA mA :: Event.ensureTarget dB mB :: al
        ++ [Event.ledgerSave saved]) = saved := by
      show savedIds (al ++ [Event.ledgerSave saved]) = saved
      rw [savedIds_append, savedIds_eq_nil al hal_nosave]
      simp [savedIds]
    rw [h1, savedIds_eq_nil cd hcd_nosave]
    simp
  refine ⟨?_, ?_, ?_⟩
  · rw [heq, noCommitBeforeSave_append _ _ hsil]
    rfl
  · have hl0 : lf.countP Event.isLedgerSave = 0 :=
      List.countP_eq_zero.mpr (fun e he => by simp [hlf_nosave e he])
    have hp0 : pn.countP Event.isLedgerSave = 0 :=
      List.countP_eq_zero.mpr (fun e he => by simp [hpn_nosave e he])
    have ha0 : al.countP Event.isLedgerSave = 0 :=
      List.countP_eq_zero.mpr (fun e he => by simp [hal_nosave e he])
    have hc0 : cd.countP Event.isLedgerSave = 0 :=
      List.countP_eq_zero.mpr (fun e he => by simp [hcd_nosave e he])
    rw [ht]
    simp [List.countP_append, List.countP_cons, hl0, hp0, ha0, hc0, Event.isLedgerSave]
  · apply List.all_eq_true.mpr
    intro e he
    rw [ht] at he
    rcases List.mem_append.mp he with h1 | h1
    · rcases List.mem_append.mp h1 with h2 | h2
      · rcases List.mem_append.mp h2 with h3 | h3
        · rcases fetch_or_stale_shape (hlf e h3) with ⟨r, rfl⟩ | ⟨it, ok, rfl⟩ <;> rfl
        · obtain ⟨it, ok, rfl⟩ := hpn e h3
          rfl
      · rcases List.mem_cons.mp h2 with h3 | h3
        · subst h3; rfl
        · rcases List.mem_cons.mp h3 with h4 | h4
          · subst h4; rfl
          · rcases List.mem_append.mp h4 with h5 | h5
            · obtain ⟨n, it, r, rfl⟩ := hal e h5
              rfl
            · rcases List.mem_singleton.mp h5 with rfl
              rfl
    · obtain ⟨it, ok, rfl, hcont⟩ := hcd e h1
      show (savedIds t).contains it.item_id = true
      rw [hsaved]
      exact hcont

/-- C6: in every pass, at most one ledger save occurs, no committed-item
deletion precedes it, and every committed-item deletion is of an item whose
`item_id` is contained in the saved id list — the single ledger persist
strictly precedes all committed deletions and already covers their ids. -/
theorem C6_save_precedes_commit_deletes (w : World) (limit : Nat) (dryRun skipBrowser : Bool) :
    noCommitBeforeSave (runOnce w limit dryRun skipBrowser).trace = true ∧
    (runOnce w limit dryRun skipBrowser).trace.countP Event.isLedgerSave ≤ 1 ∧
    ((runOnce w limit dryRun skipBrowser).trace.all (fun e =>
      match e with
      | .deleteCommitted it _ =>
          (savedIds (runOnce w limit dryRun skipBrowser).trace).contains it.item_id
      | _ => true)) = true := by
  have hlf : ∀ p : Event → Bool, (∀ r, p (.fetch r) = false) →
      (∀ it ok, p (.deleteStale it ok) = false) →
      (loadAndFilter w limit (load_ids_list w.ledgerFile) skipBrowser).2.2.countP p = 0 :=
    fun p hf hs => loadAndFilter_countP w limit (load_ids_list w.ledgerFile) skipBrowser p hf hs
  have hlf_shape := loadAndFilter_events w limit (load_ids_list w.ledgerFile) skipBrowser
  have hlf_nocommit : ∀ e ∈ (loadAndFilter w limit (load_ids_list w.ledgerFile)
      skipBrowser).2.2, e.isDeleteCommitted = false := by
    intro e he
    rcases fetch_or_stale_shape (hlf_shape e he) with ⟨r, rfl⟩ | ⟨it, ok, rfl⟩ <;> rfl
  have hlf_allok : ∀ e ∈ (loadAndFilter w limit (load_ids_list w.ledgerFile)
      skipBrowser).2.2, ∀ t : List Event, (fun e => match e with
      | .deleteCommitted it _ => (savedIds t).contains it.item_id
      | _ => true) e = true := by
    intro e he t
    rcases fetch_or_stale_shape (hlf_shape e he) with ⟨r, rfl⟩ | ⟨it, ok, rfl⟩ <;> rfl
  simp only [runOnce]
  split
  · refine ⟨noCommitBeforeSave_of_no_commit _ hlf_nocommit,
      le_trans (le_of_eq (hlf _ (fun _ => rfl) (fun _ _ => rfl))) (by omega), ?_⟩
    exact List.all_eq_true.mpr (fun e he => hlf_allok e he _)
  · split
    · refine ⟨noCommitBeforeSave_of_no_commit _ hlf_nocommit,
        le_trans (le_of_eq (hlf _ (fun _ => rfl) (fun _ _ => rfl))) (by omega), ?_⟩
      exact List.all_eq_true.mpr (fun e he => hlf_allok e he _)
    · split
      all_goals try {
        refine ⟨?_, ?_, ?_⟩
        · apply noCommitBeforeSave_of_no_commit
          intro e he
          rcases List.mem_append.mp he with h1 | h1
          · exact hlf_nocommit e h1
          · obtain ⟨it, ok, rfl, -⟩ := processNewLoop_events _ _ _ _ _ _ e h1
            rfl
        · rw [List.countP_append, hlf _ (fun _ => rfl) (fun _ _ => rfl),
            processNewLoop_countP _ _ _ _ _ _ _ (fun _ _ => rfl)]
          omega
        · apply List.all_eq_true.mpr
          intro e he
          rcases List.mem_append.mp he with h1 | h1
          · exact hlf_allok e h1 _
          · obtain ⟨it, ok, rfl, -⟩ := processNewLoop_events _ _ _ _ _ _ e h1
            rfl
      }
      split
      · -- dry-run branch: the trace is fetch/stale events plus enrichment events
        refine ⟨?_, ?_, ?_⟩
        · apply noCommitBeforeSave_of_no_commit
          intro e he
          rcases List.mem_append.mp he with h1 | h1
          · exact hlf_nocommit e h1
          · obtain ⟨it, ok, rfl, -⟩ := processNewLoop_events _ _ _ _ _ _ e h1
            rfl
        · rw [List.countP_append, hlf _ (fun _ => rfl) (fun _ _ => rfl),
            processNewLoop_countP _ _ _ _ _ _ _ (fun _ _ => rfl)]
          omega
        · apply List.all_eq_true.mpr
          intro e he
          rcases List.mem_append.mp he with h1 | h1
          · exact hlf_allok e h1 _
          · obtain ⟨it, ok, rfl, -⟩ := processNewLoop_events _ _ _ _ _ _ e h1
            rfl
      · -- commit branch
        rw [addNotesToAnki_trace_eq]
        refine commit_trace_props _ _ _ _ _ _ _ _ _ _ rfl ?_ ?_ ?_ ?_
        · exact fun e he => loadAndFilter_events w limit _ skipBrowser e he
        · intro e he
          obtain ⟨it, ok, rfl, -⟩ := processNewLoop_events _ _ _ _ _ _ e he
          exact ⟨it, ok, rfl⟩
        · intro e he
          obtain ⟨n, it, r, rfl, -⟩ := addLoop_events _ _ _ e he
          exact ⟨n, it, r, rfl⟩
        · intro e he
          split at he
          · simp at he
          · obtain ⟨it, ok, rfl, hin⟩ := commitDeletes_events _ _ _ e he
            refine ⟨it, ok, rfl, ?_⟩
            rw [sortDedup_contains]
            exact foldl_insertId_contains _ _ it hin

/-- `True` on the stale-cleanup deletion event of precisely `item`. -/
def isStaleDeleteOf (item : FavoriteItem) : Event → Bool
  | .deleteStale it _ => it == item
  | _ => false

/-- `True` on enrichment calls and note writes involving the given
`item_id` (for a write, the favorite the code pairs the note with). -/
def touchesId (id : String) : Event → Bool
  | .geminiCall it _ => it.item_id == id
  | .ankiWrite _ it _ => it.item_id == id
  | _ => false

theorem staleCleanup_countP_item (delOk : FavoriteItem → Bool) (item : FavoriteItem) :
    ∀ (items : List FavoriteItem) (src : List FavoriteItem),
    (staleCleanup delOk src items).2.countP (isStaleDeleteOf item) = items.count item := by
  intro items
  induction items with
  | nil => intro src; simp [staleCleanup]
  | cons x rest ih =>
    intro src
    simp only [staleCleanup, List.countP_cons, ih]
    rcases eq_or_ne x item with h | h
    · subst h; simp [List.count_cons, isStaleDeleteOf]
    · simp [List.count_cons, h, isStaleDeleteOf, beq_iff_eq]

theorem staleCleanup_countP (delOk : FavoriteItem → Bool) (p : Event → Bool)
    (hp : ∀ it ok, p (.deleteStale it ok) = false) (src items : List FavoriteItem) :
    (staleCleanup delOk src items).2.countP p = 0 := by
  apply List.countP_eq_zero.mpr
  intro e he
  obtain ⟨it, ok, rfl, -⟩ := staleCleanup_events delOk items src e he
  simp [hp]

/-- C7: for every pass that fetches (no skip-browser) and every fetched item
whose id is already in the loaded ledger — a stale item — a stale-cleanup
Source deletion is attempted for that item, the fetch is re-run (two fetch
events), and no enrichment call or Sink write in the pass involves that
item's id, whether or not the stale delete succeeded. -/
theorem C7_stale_never_reprocessed (w : World) (limit : Nat) (dryRun : Bool)
    (item : FavoriteItem) (hmem : item ∈ fetchF w.source limit)
    (hstale : (load_ids_list w.ledgerFile).contains item.item_id = true) :
    1 ≤ (runOnce w limit dryRun false).trace.countP (isStaleDeleteOf item) ∧
    (runOnce w limit dryRun false).trace.countP Event.isFetch = 2 ∧
    (runOnce w limit dryRun false).trace.countP (touchesId item.item_id) = 0 := by
  have hfilter : item ∈ (fetchF w.source limit).filter
      (fun it => (load_ids_list w.ledgerFile).contains it.item_id) :=
    List.mem_filter.mpr ⟨hmem, hstale⟩
  have hstale_ne : ¬ ((fetchF w.source limit).filter
      (fun it => (load_ids_list w.ledgerFile).contains it.item_id)).isEmpty = true := by
    intro hc
    rw [List.isEmpty_iff] at hc
    rw [hc] at hfilter
    simp at hfilter
  have hevs1 : (loadAndFilter w limit (load_ids_list w.ledgerFile) false).2.2 =
      .fetch (fetchF w.source limit) ::
        (staleCleanup w.deleteOk w.source ((fetchF w.source limit).filter
          (fun it => (load_ids_list w.ledgerFile).contains it.item_id))).2 ++
        [.fetch (fetchF (staleCleanup w.deleteOk w.source ((fetchF w.source limit).filter
          (fun it => (load_ids_list w.ledgerFile).contains it.item_id))).1 limit)] := by
    simp only [loadAndFilter, Bool.false_eq_true, if_false]
    rw [if_neg hstale_ne]
  have h1 : 1 ≤ (loadAndFilter w limit (load_ids_list w.ledgerFile) false).2.2.countP
      (isStaleDeleteOf item) := by
    rw [hevs1]
    rw [List.countP_append, List.countP_cons, staleCleanup_countP_item]
    have := List.count_pos_iff_mem.mpr hfilter
    simp only [isStaleDeleteOf, List.countP_cons, List.countP_nil]
    omega
  have h2 : (loadAndFilter w limit (load_ids_list w.ledgerFile) false).2.2.countP
      Event.isFetch = 2 := by
    rw [hevs1]
    rw [List.countP_append, List.countP_cons,
      staleCleanup_countP w.deleteOk _ (fun _ _ => rfl)]
    simp [Event.isFetch, List.countP_cons]
  have h3 : (loadAndFilter w limit (load_ids_list w.ledgerFile) false).2.2.countP
      (touchesId item.item_id) = 0 := by
    rw [hevs1]
    rw [List.countP_append, List.countP_cons,
      staleCleanup_countP w.deleteOk _ (fun _ _ => rfl)]
    simp [touchesId, List.countP_cons]
  have hnew_ne : ∀ it2 ∈ (loadAndFilter w limit (load_ids_list w.ledgerFile) false).1,
      (it2.item_id == item.item_id) = false := by
    intro it2 hit2
    have h4 := loadAndFilter_new_unprocessed w limit (load_ids_list w.ledgerFile) false it2 hit2
    apply beq_eq_false_iff_ne.mpr
    intro heq
    rw [heq, hstale] at h4
    exact Bool.noConfusion h4
  have hpn0 : ∀ dr : Bool,
      (processNewLoop w.cfg w.gemini limit dr 0
        (loadAndFilter w limit (load_ids_list w.ledgerFile) false).1).2.2.countP
        (touchesId item.item_id) = 0 := by
    intro dr
    apply List.countP_eq_zero.mpr
    intro e he
    obtain ⟨it2, ok, rfl, hin⟩ := processNewLoop_events _ _ _ _ _ _ e he
    simp [touchesId, hnew_ne it2 hin]
  have han0 : ∀ notes : List AnkiNote,
      (addNotesToAnki w notes (loadAndFilter w limit (load_ids_list w.ledgerFile) false).1
        (load_ids_list w.ledgerFile)).2.2.countP (touchesId item.item_id) = 0 := by
    intro notes
    apply List.countP_eq_zero.mpr
    intro e he
    rw [addNotesToAnki_trace_eq] at he
    rcases List.mem_cons.mp he with h4 | h4
    · subst h4; simp [touchesId]
    · rcases List.mem_cons.mp h4 with h5 | h5
      · subst h5; simp [touchesId]
      · rcases List.mem_append.mp h5 with h6 | h6
        · obtain ⟨n, it2, r, rfl, hin⟩ := addLoop_events _ _ _ e h6
          simp [touchesId, hnew_ne it2 hin]
        · rcases List.mem_singleton.mp h6 with rfl
          simp [touchesId]
  simp only [runOnce]
  split
  · exact ⟨h1, h2, h3⟩
  · split
    · exact ⟨h1, h2, h3⟩
    · split
      · refine ⟨?_, ?_, ?_⟩
        · rw [List.countP_append]
          omega
        · rw [List.countP_append, h2, processNewLoop_countP _ _ _ _ _ _ _ (fun _ _ => rfl)]
        · rw [List.countP_append, h3, hpn0]
      · split
        · refine ⟨?_, ?_, ?_⟩
          · rw [List.countP_append]
            omega
          · rw [List.countP_append, h2, processNewLoop_countP _ _ _ _ _ _ _ (fun _ _ => rfl)]
          · rw [List.countP_append, h3, hpn0]
        · refine ⟨?_, ?_, ?_⟩
          · rw [List.countP_append, List.countP_append, List.countP_append]
            omega
          · rw [List.countP_append, List.countP_append, List.countP_append, h2,
              processNewLoop_countP _ _ _ _ _ _ _ (fun _ _ => rfl),
              addNotesToAnki_countP _ _ _ _ _ (fun _ _ => rfl) (fun _ _ _ => rfl)
                (fun _ => rfl),
              cd_countP _ _ _ _ _ _ (fun _ _ => rfl)]
          · rw [List.countP_append, List.countP_append, List.countP_append, h3, hpn0,
              han0, cd_countP _ _ _ _ _ _ (fun _ _ => rfl)]

/-- Witness for C7 at `worldC3`: its single Source item is stale. -/
theorem C7_witness :
    itemAlpha ∈ fetchF worldC3.source 10 ∧
    (load_ids_list worldC3.ledgerFile).contains itemAlpha.item_id = true ∧
    (1 ≤ (runOnce worldC3 10 false false).trace.countP (isStaleDeleteOf itemAlpha) ∧
      (runOnce worldC3 10 false false).trace.countP Event.isFetch = 2 ∧
      (runOnce worldC3 10 false false).trace.countP (touchesId itemAlpha.item_id) = 0) := by
  have hmem : itemAlpha ∈ fetchF worldC3.source 10 := by
    have h : fetchF worldC3.source 10 = [itemAlpha] := rfl
    rw [h]
    exact List.mem_singleton.mpr rfl
  have hstale : (load_ids_list worldC3.ledgerFile).contains itemAlpha.item_id = true := rfl
  exact ⟨hmem, hstale, C7_stale_never_reprocessed worldC3 10 false itemAlpha hmem hstale⟩
